import Mathlib

/-!
# Token authentication of the service (`srv/src/jwt.go`)

A shallow embedding of the login, renewal and authorization handlers of
`jwt.go`, followed by the properties of the specification that concern them.

Conventions of the embedding:

* a Go `string` is a list of characters; the only separator the code searches
  for is the ASCII text `"Bearer "`, for which searching bytes and searching
  characters agree;
* the process-wide `appParams` is passed explicitly;
* every reading of the clock is an explicit argument;
* the `http.ResponseWriter` is the list of responses written so far;
* the libraries the handlers call (JSON decoding of the body, bcrypt, the
  signing and the verification of a token) are the fields of `Env`;
* Go `int`/`int64` values are integers; the two `Duration` products the code
  computes and the seconds that `time.Unix` stores wrap around at 64 bits.
-/

namespace Gogen

/-- Go `string`. -/
abbrev GoString := List Char

/-- Go `[]byte` holding the signing key. -/
abbrev Key := List Nat

deriving instance DecidableEq for Except

/-- Result of 64-bit signed arithmetic: the value reduced to `[-2^63, 2^63)`. -/
def wrapInt64 (x : Int) : Int := (x + 2 ^ 63) % 2 ^ 64 - 2 ^ 63

/-! ## Package `strings` -/

namespace strings

/-- `strings.Index(s, sep)`: position of the leftmost occurrence of `sep` in `s`. -/
def Index (sep : GoString) : GoString → Option Nat
  | [] => if sep = [] then some 0 else none
  | c :: cs => if sep.isPrefixOf (c :: cs) then some 0 else (Index sep cs).map (· + 1)

/-- The loop of `strings.genSplit`: cut at the leftmost occurrence, continue
after it, at most `n` times. -/
def genSplit (sep : GoString) : Nat → GoString → List GoString
  | 0, s => [s]
  | n + 1, s =>
    match Index sep s with
    | none => [s]
    | some m => s.take m :: genSplit sep n (s.drop (m + sep.length))

/-- `strings.Split(s, sep)`: the pieces of `s` between the successive leftmost,
non-overlapping occurrences of `sep`; with an empty `sep`, the characters of `s`.
The loop runs until no occurrence is left, which takes at most `len(s)` rounds. -/
def Split (s sep : GoString) : List GoString :=
  if sep = [] then s.map (fun c => [c]) else genSplit sep s.length s

end strings

/-! ## Package `time` -/

/-- A `time.Time` read on the wall clock: an instant, counted in nanoseconds
since the Unix epoch. A value is a reading of the clock or comes from
`time.Unix`, which wraps around as in Go. -/
structure Time where
  unixNano : Int
deriving DecidableEq

/-- A `time.Duration`: a signed 64-bit count of nanoseconds. -/
abbrev Duration := Int

namespace time

def Second : Duration := 1000000000

def Minute : Duration := 60 * Second

def minDuration : Duration := -(2 ^ 63)

def maxDuration : Duration := 2 ^ 63 - 1

/-- The constant `unixToInternal`: the seconds from January 1 of year 1, where a
`Time` starts counting, to the Unix epoch. -/
def unixToInternal : Int := 62135596800

/-- `time.Unix(sec, nsec)`: the nanoseconds are brought into `[0, 1e9)`, carrying
into the seconds, and the seconds are stored as a 64-bit count since year 1. That
sum wraps around: for `sec` from `2^63 - unixToInternal = 9223371974719179008`
upwards the result is an instant some 292 billion years in the past. -/
def Unix (sec nsec : Int) : Time :=
  ⟨(wrapInt64 (sec + nsec / 1000000000 + unixToInternal) - unixToInternal) * 1000000000 +
    nsec % 1000000000⟩

end time

/-- `t.Unix()`: the whole seconds since the epoch (rounded down). -/
def Time.Unix (t : Time) : Int := t.unixNano / 1000000000

/-- `t.Add(d)`. -/
def Time.Add (t : Time) (d : Duration) : Time := ⟨t.unixNano + d⟩

/-- `t.Sub(u)`: the duration `t - u`, replaced by the largest or the smallest
`Duration` when it does not fit (Go computes the difference in 64 bits and keeps
it when `u.Add(d)` gives back `t`, which is when it fits). -/
def Time.Sub (t u : Time) : Duration :=
  let d := t.unixNano - u.unixNano
  if d < time.minDuration then time.minDuration
  else if d > time.maxDuration then time.maxDuration
  else d

/-- `time.Until(t)` when the clock reads `now`. -/
def time.Until (now t : Time) : Duration := t.Sub now

/-! ## Package `net/http` -/

namespace http

def StatusOK : Nat := 200

def StatusBadRequest : Nat := 400

def StatusUnauthorized : Nat := 401

def StatusInternalServerError : Nat := 500

end http

/-- What the handlers read of an `http.Request`: the value of the
`Authorization` header (`Header.Get` gives the empty string when the header is
absent) and the body. -/
structure Request where
  Authorization : GoString
  Body : GoString

/-- One response written to the client. -/
structure Response where
  status : Nat
  data : GoString
deriving DecidableEq

/-- The `http.ResponseWriter`: the responses written so far, oldest first. -/
abbrev ResponseWriter := List Response

/-- Modelled from the spec: `sendResponse` is defined in a file of the service
that is not among the sources at hand. The spec has failures "reported to the
request layer as structured failures with an HTTP-equivalent status and a
human-readable message", and successes as the status with the token as body:
each call writes one response with the given status and text. -/
def sendResponse (rw : ResponseWriter) (status : Nat) (data : GoString) : ResponseWriter :=
  rw ++ [⟨status, data⟩]

/-! ## Data of `jwt.go` -/

/-- `JwtData`: a single JWT configuration. -/
structure JwtData where
  Enabled : Bool
  Key : Key
  Exp : Int
  RenewTime : Int

/-- `Credentials`: user name and password from the request body. -/
structure Credentials where
  Username : GoString
  Password : GoString
deriving DecidableEq

/-- `jwt.StandardClaims`; every field has Go's zero value unless set. -/
structure StandardClaims where
  Audience : GoString := []
  ExpiresAt : Int := 0
  Id : GoString := []
  IssuedAt : Int := 0
  Issuer : GoString := []
  NotBefore : Int := 0
  Subject : GoString := []
deriving DecidableEq

/-- `Claims`: the user name and the embedded `jwt.StandardClaims`. -/
structure Claims extends StandardClaims where
  Username : GoString := []
deriving DecidableEq

/-- The part of `appParams` that `jwt.go` reads: the JWT configuration and the
map from user name to password hash. -/
structure AppParams where
  jwt : JwtData
  user : GoString → Option GoString

/-- The library calls of `jwt.go`. A Go `error` result is `none` for `nil` and
`some` of the error's text otherwise. -/
structure Env where
  /-- The call `json.NewDecoder(hr.Body).Decode(&creds)`. -/
  jsonDecode : GoString → Except GoString Credentials
  /-- The call `bcrypt.CompareHashAndPassword(hash, password)`. -/
  CompareHashAndPassword : GoString → GoString → Option GoString
  /-- The call `jwt.NewWithClaims(jwt.SigningMethodHS256, claims).SignedString(key)`. -/
  SignedString : Claims → Key → Except GoString GoString
  /-- The structural decoding of a token string into claims together with the
  verification of its signature under the key. -/
  decodeVerified : GoString → Key → Except GoString Claims
  /-- The text of a duration, `Duration.String`. -/
  durationString : Duration → GoString

/-! ## Package `jwt` (github.com/dgrijalva/jwt-go) -/

namespace jwt

/-- `verifyExp`. -/
def verifyExp (exp now : Int) (required : Bool) : Bool :=
  if exp = 0 then !required else decide (now ≤ exp)

/-- `verifyIat`. -/
def verifyIat (iat now : Int) (required : Bool) : Bool :=
  if iat = 0 then !required else decide (now ≥ iat)

/-- `verifyNbf`. -/
def verifyNbf (nbf now : Int) (required : Bool) : Bool :=
  if nbf = 0 then !required else decide (now ≥ nbf)

/-- `StandardClaims.Valid`, the method `Claims` inherits: the time checks on
`exp`, `iat` and `nbf` against the clock; the text is that of the last check
that failed. -/
def Valid (env : Env) (now : Time) (c : Claims) : Option GoString :=
  let nowSec := now.Unix
  let e1 : Option GoString :=
    if verifyExp c.ExpiresAt nowSec false = false then
      some ("token is expired by ".toList ++
        env.durationString ((time.Unix nowSec 0).Sub (time.Unix c.ExpiresAt 0)))
    else none
  let e2 : Option GoString :=
    if verifyIat c.IssuedAt nowSec false = false then some "Token used before issued".toList
    else e1
  if verifyNbf c.NotBefore nowSec false = false then some "token is not valid yet".toList
  else e2

/-- `jwt.ParseWithClaims(tokenString, &claims, keyFunc)` with the default parser
and a `keyFunc` that returns `key`: the token is decoded, its claims are
validated against the clock and its signature is verified; a decoding or
signature error takes precedence over a validation error. -/
def ParseWithClaims (env : Env) (now : Time) (tokenString : GoString) (key : Key) :
    Except GoString Claims :=
  match env.decodeVerified tokenString key with
  | .error err => .error err
  | .ok claims =>
    match Valid env now claims with
    | some err => .error err
    | none => .ok claims

end jwt

/-! ## The handlers of `jwt.go` -/

/-- `sendTokenResponse`: sends the signed JWT token. -/
def sendTokenResponse (env : Env) (appParams : AppParams) (rw : ResponseWriter)
    (claims : Claims) : ResponseWriter :=
  match env.SignedString claims appParams.jwt.Key with
  | .error _ =>
    sendResponse rw http.StatusInternalServerError "unable to sign the JWT token".toList
  | .ok signedToken => sendResponse rw http.StatusOK signedToken

/-- `loginHandler`, with `now` the reading of `time.Now()`. -/
def loginHandler (env : Env) (appParams : AppParams) (now : Time) (rw : ResponseWriter)
    (hr : Request) : ResponseWriter :=
  match env.jsonDecode hr.Body with
  | .error err => sendResponse rw http.StatusBadRequest err
  | .ok creds =>
    match appParams.user creds.Username with
    | none =>
      sendResponse rw http.StatusUnauthorized "invalid authentication credentials".toList
    | some hash =>
      match env.CompareHashAndPassword hash creds.Password with
      | some _ =>
        sendResponse rw http.StatusUnauthorized "invalid authentication credentials".toList
      | none =>
        let exp := now.Add (wrapInt64 (appParams.jwt.Exp * time.Minute))
        let claims : Claims := { Username := creds.Username, ExpiresAt := exp.Unix }
        sendTokenResponse env appParams rw claims

/-- `checkJwtToken`, with `now` the clock the token library reads. -/
def checkJwtToken (env : Env) (appParams : AppParams) (now : Time) (hr : Request) :
    Except GoString Claims :=
  let headAuth := hr.Authorization
  if headAuth.length = 0 then .error "missing Authorization header".toList
  else
    let authSplit := strings.Split headAuth "Bearer ".toList
    if authSplit.length ≠ 2 then .error "missing JWT token".toList
    else
      let signedToken := authSplit.getD 1 []
      jwt.ParseWithClaims env now signedToken appParams.jwt.Key

/-- `renewJwtHandler`; `now` is the clock during the token check and `now2` the
later reading taken by `time.Until`. -/
def renewJwtHandler (env : Env) (appParams : AppParams) (now now2 : Time)
    (rw : ResponseWriter) (hr : Request) : ResponseWriter :=
  match checkJwtToken env appParams now hr with
  | .error err => sendResponse rw http.StatusUnauthorized err
  | .ok claims =>
    if time.Until now2 (time.Unix claims.ExpiresAt 0) >
        wrapInt64 (appParams.jwt.RenewTime * time.Second) then
      sendResponse rw http.StatusBadRequest
        "the JWT token can be renewed only when it is close to expiration".toList
    else sendTokenResponse env appParams rw claims

/-- `isAuthorized`: the verdict and the response writer afterwards. -/
def isAuthorized (env : Env) (appParams : AppParams) (now : Time) (rw : ResponseWriter)
    (hr : Request) : Bool × ResponseWriter :=
  if appParams.jwt.Enabled then
    match checkJwtToken env appParams now hr with
    | .error err => (false, sendResponse rw http.StatusUnauthorized err)
    | .ok _ => (true, rw)
  else (true, rw)

/-! ## Notions used by the properties -/

/-- The text `"Bearer "` the header is split at. -/
def bearer : GoString := ['B', 'e', 'a', 'r', 'e', 'r', ' ']

/-- Number of positions of `h` at which an occurrence of `sep` starts. -/
def countOccurrences (sep : GoString) : GoString → Nat
  | [] => if sep = [] then 1 else 0
  | c :: cs => (if sep.isPrefixOf (c :: cs) then 1 else 0) + countOccurrences sep cs

/-- On the header value `h`, `checkJwtToken` hands `tok` to the decoder: whatever
the libraries, the configuration and the clock, its result is the result of
`jwt.ParseWithClaims` on `tok`. -/
def HandsToDecoder (h tok : GoString) : Prop :=
  ∀ (env : Env) (appParams : AppParams) (now : Time) (body : GoString),
    checkJwtToken env appParams now ⟨h, body⟩ =
      jwt.ParseWithClaims env now tok appParams.jwt.Key

/-- On the header value `h`, `checkJwtToken` fails before decoding anything:
whatever the libraries, it returns one of its own two errors. -/
def RejectsUndecoded (h : GoString) : Prop :=
  ∀ (env : Env) (appParams : AppParams) (now : Time) (body : GoString),
    checkJwtToken env appParams now ⟨h, body⟩ = .error "missing Authorization header".toList ∨
    checkJwtToken env appParams now ⟨h, body⟩ = .error "missing JWT token".toList

/-! ## A finite library environment, for evaluating the handlers -/

/-- Text of a whole, positive number of seconds in the format of
`Duration.String` (`1h2m3s`, `4m5s`, `6s`). -/
def secondsString (d : Duration) : GoString :=
  let u := (d / 1000000000).toNat
  let s := (Nat.repr (u % 60)).toList ++ ['s']
  let m := (Nat.repr (u / 60 % 60)).toList ++ ['m']
  let h := (Nat.repr (u / 3600)).toList ++ ['h']
  if u / 3600 > 0 then h ++ m ++ s else if u / 60 > 0 then m ++ s else s

/-- Library environment given by two finite tables: the login bodies that decode,
with their credentials, and the tokens in circulation, with their claims and the
key that signed them. The hash of a password is the password after `"bcrypt:"`. -/
def tableEnv (bodies : List (GoString × Credentials))
    (tokens : List (GoString × Claims × Key)) : Env where
  jsonDecode body :=
    match bodies.find? (fun e => e.1 = body) with
    | some e => .ok e.2
    | none => .error "unexpected end of JSON input".toList
  CompareHashAndPassword hash password :=
    if hash = "bcrypt:".toList ++ password then none
    else some "crypto/bcrypt: hashedPassword is not the hash of the given password".toList
  SignedString claims key :=
    match tokens.find? (fun e => e.2.1 = claims ∧ e.2.2 = key) with
    | some e => .ok e.1
    | none => .error "key is invalid".toList
  decodeVerified tokenString key :=
    match tokens.find? (fun e => e.1 = tokenString) with
    | none => .error "token contains an invalid number of segments".toList
    | some e => if e.2.2 = key then .ok e.2.1 else .error "signature is invalid".toList
  durationString := secondsString

/-- Signing key of the examples. -/
def demoKey : Key := [107, 101, 121]

/-- Login time `t0` of the examples, in seconds. -/
def t0 : Int := 1700000000

/-- Claims of the token issued to `alice` at `t0` with `exp = 15` minutes. -/
def aliceClaims : Claims := { Username := "alice".toList, ExpiresAt := t0 + 900 }

/-- Libraries of the examples: one login body, and the token `abc` for `aliceClaims`. -/
def demoEnv : Env :=
  tableEnv [("alice/secret".toList, ⟨"alice".toList, "secret".toList⟩),
            ("alice/wrong".toList, ⟨"alice".toList, "wrong".toList⟩),
            ("bob/secret".toList, ⟨"bob".toList, "secret".toList⟩)]
    [("abc".toList, aliceClaims, demoKey)]

/-- Configuration of the examples: `exp` minutes, `renewTime` seconds, and the
single user `alice`. -/
def demoParams (exp renewTime : Int) : AppParams where
  jwt := { Enabled := true, Key := demoKey, Exp := exp, RenewTime := renewTime }
  user name := if name = "alice".toList then some "bcrypt:secret".toList else none

/-- Libraries whose decoder accepts exactly the token `tok`, with claims that
carry no time bound. -/
def probeEnv (tok : GoString) : Env where
  jsonDecode _ := .error []
  CompareHashAndPassword _ _ := none
  SignedString _ _ := .error []
  decodeVerified tokenString _ := if tokenString = tok then .ok {} else .error []
  durationString _ := []

/-- A configuration with authentication enabled, an empty key and no user. -/
def probeParams : AppParams where
  jwt := { Enabled := true, Key := [], Exp := 0, RenewTime := 0 }
  user _ := none

/-- Time that remains at the instant `now` until the `exp` of the claims, in
nanoseconds. -/
def remaining (c : Claims) (now : Time) : Int := c.ExpiresAt * 1000000000 - now.unixNano

/-- Claims that are signed for `alice` with the largest `ExpiresAt` an `int64`
holds. -/
def farClaims : Claims := { Username := "alice".toList, ExpiresAt := 9223372036854775807 }

/-- Libraries in which the token `far` carries `farClaims`. -/
def farEnv : Env := tableEnv [] [("far".toList, farClaims, demoKey)]

/-- Libraries of the overflow example: the token `xyz` carries the claims that
a login at `t0` signs when `exp` is 153722868 minutes. -/
def wrapEnv : Env :=
  tableEnv [("alice/secret".toList, ⟨"alice".toList, "secret".toList⟩)]
    [("xyz".toList, { Username := "alice".toList, ExpiresAt := -7523371994 }, demoKey)]

/-! ## Splitting at `"Bearer "` -/

theorem bearer_literal : "Bearer ".toList = bearer := rfl

theorem bearer_isPrefixOf_iff (s : GoString) :
    bearer.isPrefixOf s = true ↔ ∃ t, s = bearer ++ t := by
  rw [List.isPrefixOf_iff_prefix]
  constructor
  · rintro ⟨t, ht⟩
    exact ⟨t, ht.symm⟩
  · rintro ⟨t, ht⟩
    exact ⟨t, ht.symm⟩

/-- No occurrence of `"Bearer "` starts inside another one. -/
theorem countOccurrences_bearer_append (t : GoString) :
    countOccurrences bearer (bearer ++ t) = 1 + countOccurrences bearer t := by
  simp [bearer, countOccurrences, List.isPrefixOf]

theorem countOccurrences_of_no_space (t : GoString) (ht : ' ' ∉ t) :
    countOccurrences bearer t = 0 := by
  induction t with
  | nil => simp [countOccurrences, bearer]
  | cons c cs ih =>
    have hcs : ' ' ∉ cs := fun hmem => ht (List.mem_cons_of_mem _ hmem)
    have hpre : bearer.isPrefixOf (c :: cs) = false := by
      cases hb : bearer.isPrefixOf (c :: cs) with
      | false => rfl
      | true =>
        obtain ⟨r, hr⟩ := (bearer_isPrefixOf_iff _).1 hb
        exact absurd (by rw [hr]; simp [bearer]) ht
    simp [countOccurrences, hpre, ih hcs]

theorem Index_none (s : GoString) (h : strings.Index bearer s = none) :
    countOccurrences bearer s = 0 := by
  induction s with
  | nil => simp [countOccurrences, bearer]
  | cons c cs ih =>
    unfold strings.Index at h
    by_cases hp : bearer.isPrefixOf (c :: cs) = true
    · simp [hp] at h
    · simp only [hp] at h
      simp only [Bool.false_eq_true, if_false, Option.map_eq_none'] at h
      simp [countOccurrences, hp, ih h]

theorem Index_some (s : GoString) (m : Nat) (h : strings.Index bearer s = some m) :
    s = s.take m ++ bearer ++ s.drop (m + bearer.length) ∧
    countOccurrences bearer s = 1 + countOccurrences bearer (s.drop (m + bearer.length)) ∧
    countOccurrences bearer (s.take m) = 0 := by
  induction s generalizing m with
  | nil => simp [strings.Index, bearer] at h
  | cons c cs ih =>
    unfold strings.Index at h
    by_cases hp : bearer.isPrefixOf (c :: cs) = true
    · simp only [hp, if_true, Option.some.injEq] at h
      subst h
      obtain ⟨t, ht⟩ := (bearer_isPrefixOf_iff _).1 hp
      rw [ht]
      refine ⟨by simp, ?_, by simp [countOccurrences, bearer]⟩
      simp [countOccurrences_bearer_append]
    · simp only [hp, Bool.false_eq_true, if_false, Option.map_eq_some'] at h
      obtain ⟨k, hk, rfl⟩ := h
      obtain ⟨h1, h2, h3⟩ := ih k hk
      refine ⟨?_, ?_, ?_⟩
      · have : (c :: cs).drop (k + 1 + bearer.length) = cs.drop (k + bearer.length) := by
          rw [show k + 1 + bearer.length = (k + bearer.length) + 1 by omega]
          rfl
        rw [this, List.take_succ_cons, List.cons_append, List.cons_append, ← h1]
      · have : (c :: cs).drop (k + 1 + bearer.length) = cs.drop (k + bearer.length) := by
          rw [show k + 1 + bearer.length = (k + bearer.length) + 1 by omega]
          rfl
        rw [this]
        simp [countOccurrences, hp, h2]
      · rw [List.take_succ_cons]
        have hq : bearer.isPrefixOf (c :: cs.take k) = false := by
          cases hb : bearer.isPrefixOf (c :: cs.take k) with
          | false => rfl
          | true =>
            exfalso
            apply hp
            rw [List.isPrefixOf_iff_prefix] at hb ⊢
            have hpre : (c :: cs.take k) <+: (c :: cs) := by
              have := List.take_prefix (k + 1) (c :: cs)
              simpa using this
            exact hb.trans hpre
        simp [countOccurrences, hq, h3]

theorem genSplit_of_none (n : Nat) (s : GoString) (h : countOccurrences bearer s = 0) :
    strings.genSplit bearer n s = [s] := by
  cases n with
  | zero => rfl
  | succ n =>
    unfold strings.genSplit
    cases hi : strings.Index bearer s with
    | none => rfl
    | some m =>
      have := (Index_some s m hi).2.1
      omega

theorem genSplit_length (n : Nat) (s : GoString) (hn : s.length ≤ n) :
    (strings.genSplit bearer n s).length = countOccurrences bearer s + 1 := by
  induction n generalizing s with
  | zero =>
    have hs : s = [] := List.length_eq_zero.1 (Nat.le_zero.1 hn)
    subst hs
    simp [strings.genSplit, countOccurrences, bearer]
  | succ n ih =>
    unfold strings.genSplit
    cases hi : strings.Index bearer s with
    | none => simp [Index_none s hi]
    | some m =>
      obtain ⟨h1, h2, _⟩ := Index_some s m hi
      have hlen : (s.drop (m + bearer.length)).length ≤ n := by
        have hb : bearer.length = 7 := rfl
        have hl := congrArg List.length h1
        simp only [List.length_append, List.length_take, List.length_drop, hb] at hl ⊢
        omega
      simp only [List.length_cons, ih _ hlen, h2]
      omega

/-- The split of a header with exactly one `"Bearer "`: the text before it and
the text after it. -/
theorem Split_of_one (h : GoString) (h1 : countOccurrences bearer h = 1) :
    ∃ pre tok, h = pre ++ bearer ++ tok ∧ strings.Split h bearer = [pre, tok] := by
  have hne : bearer ≠ [] := by simp [bearer]
  unfold strings.Split
  simp only [hne, if_false]
  cases hl : h.length with
  | zero =>
    have hs : h = [] := List.length_eq_zero.1 hl
    subst hs
    simp [countOccurrences, bearer] at h1
  | succ n =>
    unfold strings.genSplit
    cases hi : strings.Index bearer h with
    | none =>
      have := Index_none h hi
      omega
    | some m =>
      obtain ⟨e1, e2, _⟩ := Index_some h m hi
      have h0 : countOccurrences bearer (h.drop (m + bearer.length)) = 0 := by omega
      exact ⟨h.take m, h.drop (m + bearer.length), e1, by simp [genSplit_of_none _ _ h0]⟩

theorem Split_length (h : GoString) :
    (strings.Split h bearer).length = countOccurrences bearer h + 1 := by
  have hne : bearer ≠ [] := by simp [bearer]
  unfold strings.Split
  simp only [hne, if_false]
  exact genSplit_length _ _ (Nat.le_refl _)

/-! ## What `checkJwtToken` does with a header -/

theorem handsToDecoder_of_one (h : GoString) (h1 : countOccurrences bearer h = 1) :
    ∃ pre tok, h = pre ++ bearer ++ tok ∧ HandsToDecoder h tok := by
  obtain ⟨pre, tok, e, hs⟩ := Split_of_one h h1
  refine ⟨pre, tok, e, ?_⟩
  intro env appParams now body
  have hlen : h.length ≠ 0 := by
    intro h0
    have hs : h = [] := List.length_eq_zero.1 h0
    subst hs
    simp [countOccurrences, bearer] at h1
  unfold checkJwtToken
  simp only [bearer_literal, hs, hlen]
  simp

theorem rejectsUndecoded_of_not_one (h : GoString) (h1 : countOccurrences bearer h ≠ 1) :
    RejectsUndecoded h := by
  intro env appParams now body
  by_cases hlen : h.length = 0
  · left
    simp [checkJwtToken, hlen]
  · right
    have hl : (strings.Split h bearer).length ≠ 2 := by
      rw [Split_length]
      omega
    unfold checkJwtToken
    simp only [bearer_literal, hlen]
    simp [hl]

theorem countOccurrences_pos (a b : GoString) :
    1 ≤ countOccurrences bearer (a ++ bearer ++ b) := by
  induction a with
  | nil =>
    rw [List.nil_append, countOccurrences_bearer_append]
    omega
  | cons c cs ih =>
    rw [List.cons_append, List.cons_append]
    unfold countOccurrences
    exact Nat.le_trans ih (Nat.le_add_left _ _)

/-- A header with exactly one `"Bearer "` is cut at it in one way only. -/
theorem bearer_cut_unique (pre pre2 tok tok2 : GoString)
    (e : pre ++ bearer ++ tok = pre2 ++ bearer ++ tok2)
    (h1 : countOccurrences bearer (pre ++ bearer ++ tok) = 1) : pre = pre2 ∧ tok = tok2 := by
  induction pre generalizing pre2 with
  | nil =>
    cases pre2 with
    | nil =>
      refine ⟨rfl, ?_⟩
      simpa using e
    | cons c p =>
      exfalso
      rw [List.nil_append] at e h1
      have hp : bearer.isPrefixOf (c :: (p ++ bearer ++ tok2)) = true :=
        (bearer_isPrefixOf_iff _).2 ⟨tok, by rw [e]; rfl⟩
      have h2 := countOccurrences_pos p tok2
      rw [e, List.cons_append, List.cons_append] at h1
      unfold countOccurrences at h1
      rw [hp] at h1
      simp only [if_true] at h1
      omega
  | cons c p ih =>
    cases pre2 with
    | nil =>
      exfalso
      rw [List.nil_append] at e
      have hp : bearer.isPrefixOf (c :: (p ++ bearer ++ tok)) = true :=
        (bearer_isPrefixOf_iff _).2 ⟨tok2, by rw [← e]; rfl⟩
      have h2 := countOccurrences_pos p tok
      rw [List.cons_append, List.cons_append] at h1
      unfold countOccurrences at h1
      rw [hp] at h1
      simp only [if_true] at h1
      omega
    | cons c2 p2 =>
      rw [List.cons_append, List.cons_append, List.cons_append, List.cons_append] at e
      injection e with ec et
      subst ec
      have h2 := countOccurrences_pos p tok
      rw [List.cons_append, List.cons_append] at h1
      unfold countOccurrences at h1
      have h3 : countOccurrences bearer (p ++ bearer ++ tok) = 1 := by
        split at h1 <;> omega
      obtain ⟨ep, etok⟩ := ih p2 et h3
      exact ⟨by rw [ep], etok⟩

theorem handsToDecoder_cut (h pre tok : GoString) (e : h = pre ++ bearer ++ tok)
    (h1 : countOccurrences bearer h = 1) : HandsToDecoder h tok := by
  obtain ⟨pre2, tok2, e2, hh⟩ := handsToDecoder_of_one h h1
  have hu := bearer_cut_unique pre pre2 tok tok2 (by rw [← e, ← e2]) (by rw [← e]; exact h1)
  rw [hu.2]
  exact hh

theorem parse_probe (tok t : GoString) (now : Time) (key : Key) :
    jwt.ParseWithClaims (probeEnv tok) now t key =
      if t = tok then .ok {} else .error [] := by
  unfold jwt.ParseWithClaims
  by_cases ht : t = tok
  · simp [probeEnv, ht, jwt.Valid, jwt.verifyExp, jwt.verifyIat, jwt.verifyNbf]
  · simp [probeEnv, ht]

theorem handsToDecoder_not_rejects (h tok : GoString) (hh : HandsToDecoder h tok) :
    ¬ RejectsUndecoded h := by
  intro hr
  have h1 := hh (probeEnv tok) probeParams ⟨0⟩ []
  rw [parse_probe] at h1
  simp only [if_true] at h1
  rcases hr (probeEnv tok) probeParams ⟨0⟩ [] with h2 | h2 <;> rw [h1] at h2 <;> cases h2

theorem handsToDecoder_unique (h tok tok2 : GoString) (hh : HandsToDecoder h tok)
    (hh2 : HandsToDecoder h tok2) : tok = tok2 := by
  have h1 := hh (probeEnv tok) probeParams ⟨0⟩ []
  have h2 := hh2 (probeEnv tok) probeParams ⟨0⟩ []
  rw [h1, parse_probe, parse_probe] at h2
  by_cases ht : tok2 = tok
  · exact ht.symm
  · simp [ht] at h2

theorem handsToDecoder_iff (h tok : GoString) :
    HandsToDecoder h tok ↔
      countOccurrences bearer h = 1 ∧ ∃ pre, h = pre ++ bearer ++ tok := by
  constructor
  · intro hh
    have h1 : countOccurrences bearer h = 1 := by
      by_contra hne
      exact handsToDecoder_not_rejects h tok hh (rejectsUndecoded_of_not_one h hne)
    obtain ⟨pre, tok2, e, hh2⟩ := handsToDecoder_of_one h h1
    have := handsToDecoder_unique h tok tok2 hh hh2
    exact ⟨h1, pre, by rw [this]; exact e⟩
  · rintro ⟨h1, pre, e⟩
    exact handsToDecoder_cut h pre tok e h1

/-- C10: `checkJwtToken` gets past the extraction of the token exactly on the
header values that contain one occurrence of `"Bearer "`, and every other value
is rejected with one of its two errors before any decoding; the token handed to
the decoder is the text after that occurrence, whatever precedes it. So
`"Bearer " ++ t` yields `t` for every space-free `t`, `"xyzBearer abc"` yields
`"abc"`, `"Bearer a b"` yields `"a b"`, `"Bearer "` yields the empty token and
`"Bearer Bearer abc"` is rejected. -/
theorem checkJwtToken_acceptance_set :
    (∀ h : GoString,
      ((∃ tok, HandsToDecoder h tok) ↔ countOccurrences bearer h = 1) ∧
      (RejectsUndecoded h ↔ countOccurrences bearer h ≠ 1) ∧
      (∀ tok, HandsToDecoder h tok ↔
        countOccurrences bearer h = 1 ∧ ∃ pre, h = pre ++ bearer ++ tok)) ∧
    (∀ t : GoString, ' ' ∉ t → HandsToDecoder ("Bearer ".toList ++ t) t) ∧
    HandsToDecoder "xyzBearer abc".toList "abc".toList ∧
    HandsToDecoder "Bearer a b".toList "a b".toList ∧
    HandsToDecoder "Bearer ".toList [] ∧
    RejectsUndecoded "Bearer Bearer abc".toList := by
  refine ⟨fun h => ⟨⟨?_, ?_⟩, ⟨?_, ?_⟩, handsToDecoder_iff h⟩, ?_, ?_, ?_, ?_, ?_⟩
  · rintro ⟨tok, hh⟩
    exact ((handsToDecoder_iff h tok).1 hh).1
  · intro h1
    obtain ⟨_, tok, _, hh⟩ := handsToDecoder_of_one h h1
    exact ⟨tok, hh⟩
  · intro hr h1
    obtain ⟨_, tok, _, hh⟩ := handsToDecoder_of_one h h1
    exact handsToDecoder_not_rejects h tok hh hr
  · exact rejectsUndecoded_of_not_one h
  · intro t ht
    refine handsToDecoder_cut _ [] t rfl ?_
    rw [bearer_literal, countOccurrences_bearer_append, countOccurrences_of_no_space t ht]
  · exact handsToDecoder_cut _ "xyz".toList _ rfl (by decide)
  · exact handsToDecoder_cut _ [] _ rfl (by decide)
  · exact handsToDecoder_cut _ [] _ rfl (by decide)
  · exact rejectsUndecoded_of_not_one _ (by decide)

theorem exists_cut_of_pos (h : GoString) (h1 : 1 ≤ countOccurrences bearer h) :
    ∃ pre tok, h = pre ++ bearer ++ tok := by
  cases hi : strings.Index bearer h with
  | none =>
    have := Index_none h hi
    omega
  | some m => exact ⟨_, _, (Index_some h m hi).1⟩

/-- C5, as the code has it: a header that is `"Bearer "` followed by a space-free
token `t` hands `t` to the decoder; a header that does not contain `"Bearer "`
(missing or empty header, no scheme as in `"abc"`, no token as in `"Bearer"`) or
contains it more than once is rejected with the missing-header or missing-token
error before any decoding; but a header is not rejected for text before the
scheme, for an empty token or for spaces in the token: whenever `"Bearer "`
occurs once, all the text after it goes to the decoder, `"a b"` for
`"Bearer a b"`. -/
theorem bearer_header_extraction :
    (∀ t : GoString, ' ' ∉ t → HandsToDecoder ("Bearer ".toList ++ t) t) ∧
    (∀ h : GoString, (¬ ∃ pre tok, h = pre ++ bearer ++ tok) → RejectsUndecoded h) ∧
    (∀ h : GoString, 2 ≤ countOccurrences bearer h → RejectsUndecoded h) ∧
    (∀ pre tok : GoString, countOccurrences bearer (pre ++ bearer ++ tok) = 1 →
      HandsToDecoder (pre ++ bearer ++ tok) tok) ∧
    HandsToDecoder "Bearer abc".toList "abc".toList ∧
    RejectsUndecoded [] ∧
    RejectsUndecoded "Bearer".toList ∧
    RejectsUndecoded "abc".toList ∧
    HandsToDecoder "Bearer a b".toList "a b".toList := by
  refine ⟨?_, ?_, ?_, ?_, ?_, ?_, ?_, ?_, ?_⟩
  · intro t ht
    refine handsToDecoder_cut _ [] t rfl ?_
    rw [bearer_literal, countOccurrences_bearer_append, countOccurrences_of_no_space t ht]
  · intro h hno
    refine rejectsUndecoded_of_not_one h ?_
    intro h1
    exact hno (exists_cut_of_pos h (by omega))
  · intro h h2
    exact rejectsUndecoded_of_not_one h (by omega)
  · intro pre tok h1
    exact handsToDecoder_cut _ pre tok rfl h1
  · exact handsToDecoder_cut _ [] _ rfl (by decide)
  · exact rejectsUndecoded_of_not_one _ (by decide)
  · exact rejectsUndecoded_of_not_one _ (by decide)
  · exact rejectsUndecoded_of_not_one _ (by decide)
  · exact handsToDecoder_cut _ [] _ rfl (by decide)

/-- C5 as stated fails: the header `"Bearer a b"` is not rejected before
decoding, its text `"a b"` goes to the decoder, whose verdict is the result (a
success when the decoder accepts it, the decoder's own error otherwise); and
`"xyzBearer abc"`, with text before the scheme, passes the check with the
token `abc`. -/
theorem bearer_strictness_counterexample :
    checkJwtToken (probeEnv "a b".toList) probeParams ⟨0⟩ ⟨"Bearer a b".toList, []⟩ = .ok {} ∧
    checkJwtToken (probeEnv "abc".toList) probeParams ⟨0⟩ ⟨"xyzBearer abc".toList, []⟩ = .ok {} ∧
    checkJwtToken demoEnv (demoParams 15 120) ⟨t0 * 1000000000⟩ ⟨"xyzBearer abc".toList, []⟩ =
      .ok aliceClaims ∧
    checkJwtToken demoEnv (demoParams 15 120) ⟨t0 * 1000000000⟩ ⟨"Bearer a b".toList, []⟩ =
      .error "token contains an invalid number of segments".toList ∧
    ¬ RejectsUndecoded "Bearer a b".toList ∧
    ¬ RejectsUndecoded "xyzBearer abc".toList := by
  refine ⟨by decide, by decide, by decide, by decide, ?_, ?_⟩
  · exact handsToDecoder_not_rejects _ "a b".toList (handsToDecoder_cut _ [] _ rfl (by decide))
  · exact handsToDecoder_not_rejects _ "abc".toList
      (handsToDecoder_cut _ "xyz".toList _ rfl (by decide))

/-! ## The authorization gate -/

/-- C6: `isAuthorized` returns true exactly when authentication is disabled or
`checkJwtToken` returns no error. With authentication disabled every request,
also one without `Authorization` header, is authorized and nothing is written;
with authentication enabled a failed check returns false after writing one 401
response with the error's text, and a passed check writes nothing. -/
theorem isAuthorized_decision (env : Env) (appParams : AppParams) (now : Time)
    (rw : ResponseWriter) (hr : Request) :
    ((isAuthorized env appParams now rw hr).1 = true ↔
      (appParams.jwt.Enabled = false ∨ ∃ c, checkJwtToken env appParams now hr = .ok c)) ∧
    (appParams.jwt.Enabled = false →
      isAuthorized env appParams now rw hr = (true, rw) ∧
      isAuthorized env appParams now rw ⟨[], hr.Body⟩ = (true, rw)) ∧
    (∀ err, appParams.jwt.Enabled = true → checkJwtToken env appParams now hr = .error err →
      isAuthorized env appParams now rw hr =
        (false, rw ++ [⟨http.StatusUnauthorized, err⟩])) ∧
    (∀ c, checkJwtToken env appParams now hr = .ok c →
      isAuthorized env appParams now rw hr = (true, rw)) := by
  refine ⟨?_, ?_, ?_, ?_⟩
  · unfold isAuthorized
    cases hen : appParams.jwt.Enabled with
    | false => simp
    | true =>
      cases hc : checkJwtToken env appParams now hr with
      | error e => simp
      | ok c => simp
  · intro hen
    simp [isAuthorized, hen]
  · intro err hen hc
    simp [isAuthorized, hen, hc, sendResponse]
  · intro c hc
    unfold isAuthorized
    cases hen : appParams.jwt.Enabled with
    | false => simp
    | true => simp [hc]

/-- C6 on concrete requests. -/
theorem isAuthorized_decision_witness :
    isAuthorized demoEnv (demoParams 15 120) ⟨t0 * 1000000000⟩ [] ⟨"Bearer".toList, []⟩ =
      (false, [⟨401, "missing JWT token".toList⟩]) ∧
    isAuthorized demoEnv
      { jwt := { Enabled := false, Key := demoKey, Exp := 15, RenewTime := 120 },
        user := fun _ => none } ⟨t0 * 1000000000⟩ [] ⟨[], []⟩ = (true, []) :=
  ⟨(isAuthorized_decision demoEnv (demoParams 15 120) ⟨t0 * 1000000000⟩ []
      ⟨"Bearer".toList, []⟩).2.2.1 "missing JWT token".toList rfl (by decide),
   ((isAuthorized_decision demoEnv
      { jwt := { Enabled := false, Key := demoKey, Exp := 15, RenewTime := 120 },
        user := fun _ => none } ⟨t0 * 1000000000⟩ [] ⟨[], []⟩).2.1 rfl).2⟩

/-! ## Login -/

/-- C4: a login for a user name that is not in the credential store and a login
for a known user name with a password that does not match the stored hash get
the same response, status 401 with the text "invalid authentication
credentials", and nothing else is written: no token is issued. -/
theorem login_failures_indistinguishable (env : Env) (appParams : AppParams) (now now2 : Time)
    (rw : ResponseWriter) (hr hr2 : Request) (creds creds2 : Credentials)
    (hash err : GoString)
    (hd : env.jsonDecode hr.Body = .ok creds)
    (hu : appParams.user creds.Username = none)
    (hd2 : env.jsonDecode hr2.Body = .ok creds2)
    (hu2 : appParams.user creds2.Username = some hash)
    (hc2 : env.CompareHashAndPassword hash creds2.Password = some err) :
    loginHandler env appParams now rw hr = loginHandler env appParams now2 rw hr2 ∧
    loginHandler env appParams now rw hr =
      rw ++ [⟨http.StatusUnauthorized, "invalid authentication credentials".toList⟩] := by
  have h1 : loginHandler env appParams now rw hr =
      rw ++ [⟨http.StatusUnauthorized, "invalid authentication credentials".toList⟩] := by
    unfold loginHandler
    rw [hd]
    simp only [hu]
    rfl
  have h2 : loginHandler env appParams now2 rw hr2 =
      rw ++ [⟨http.StatusUnauthorized, "invalid authentication credentials".toList⟩] := by
    unfold loginHandler
    rw [hd2]
    simp only [hu2, hc2]
    rfl
  exact ⟨h1.trans h2.symm, h1⟩

/-- C4 on the examples: `bob` is unknown, `alice` is known and `wrong` is not
her password. -/
theorem login_failures_indistinguishable_witness :
    loginHandler demoEnv (demoParams 15 120) ⟨t0 * 1000000000⟩ [] ⟨[], "bob/secret".toList⟩ =
      loginHandler demoEnv (demoParams 15 120) ⟨t0 * 1000000000⟩ []
        ⟨[], "alice/wrong".toList⟩ ∧
    loginHandler demoEnv (demoParams 15 120) ⟨t0 * 1000000000⟩ [] ⟨[], "bob/secret".toList⟩ =
      [⟨401, "invalid authentication credentials".toList⟩] :=
  login_failures_indistinguishable demoEnv (demoParams 15 120) ⟨t0 * 1000000000⟩
    ⟨t0 * 1000000000⟩ [] ⟨[], "bob/secret".toList⟩ ⟨[], "alice/wrong".toList⟩
    ⟨"bob".toList, "secret".toList⟩ ⟨"alice".toList, "wrong".toList⟩ "bcrypt:secret".toList
    "crypto/bcrypt: hashedPassword is not the hash of the given password".toList
    (by decide) (by decide) (by decide) (by decide) (by decide)

theorem wrapInt64_of_range (x : Int) (h1 : -9223372036854775808 ≤ x)
    (h2 : x ≤ 9223372036854775807) : wrapInt64 x = x := by
  unfold wrapInt64
  norm_num
  omega

theorem sendResponse_inj (rw : ResponseWriter) (s1 s2 : Nat) (d1 d2 : GoString)
    (h : sendResponse rw s1 d1 = sendResponse rw s2 d2) : s1 = s2 ∧ d1 = d2 := by
  unfold sendResponse at h
  have := List.append_cancel_left h
  simpa using this

/-- A response of `sendTokenResponse` is 200 with the signed token or 500. -/
theorem sendTokenResponse_cases (env : Env) (appParams : AppParams) (rw : ResponseWriter)
    (c : Claims) (st : Nat) (d : GoString)
    (h : sendTokenResponse env appParams rw c = sendResponse rw st d) :
    (st = 200 ∧ env.SignedString c appParams.jwt.Key = .ok d) ∨ st = 500 := by
  unfold sendTokenResponse at h
  cases hs : env.SignedString c appParams.jwt.Key with
  | error e =>
    rw [hs] at h
    exact Or.inr (sendResponse_inj _ _ _ _ _ h).1.symm
  | ok t =>
    rw [hs] at h
    have := sendResponse_inj _ _ _ _ _ h
    exact Or.inl ⟨this.1.symm, by rw [this.2]⟩

/-- After the credentials are accepted, `loginHandler` signs the user name and
the expiration it computes, and nothing else. -/
theorem loginHandler_success (env : Env) (appParams : AppParams) (now : Time)
    (rw : ResponseWriter) (hr : Request) (creds : Credentials) (hash : GoString)
    (hd : env.jsonDecode hr.Body = .ok creds)
    (hu : appParams.user creds.Username = some hash)
    (hc : env.CompareHashAndPassword hash creds.Password = none) :
    loginHandler env appParams now rw hr =
      sendTokenResponse env appParams rw
        { Username := creds.Username,
          ExpiresAt := (now.Add (wrapInt64 (appParams.jwt.Exp * time.Minute))).Unix } := by
  unfold loginHandler
  rw [hd]
  simp only [hu, hc]

/-- C7, within the range of a `Duration`: when `exp` minutes fit in 64-bit
nanoseconds, that is for `exp` between -153722867 and 153722867, the claims
signed by a successful login at `now` have `ExpiresAt = now.Unix() + 60 * exp`
and carry the submitted user name. -/
theorem login_expiresAt (env : Env) (appParams : AppParams) (now : Time)
    (rw : ResponseWriter) (hr : Request) (creds : Credentials) (hash : GoString)
    (hd : env.jsonDecode hr.Body = .ok creds)
    (hu : appParams.user creds.Username = some hash)
    (hc : env.CompareHashAndPassword hash creds.Password = none)
    (hlo : -153722867 ≤ appParams.jwt.Exp) (hhi : appParams.jwt.Exp ≤ 153722867) :
    loginHandler env appParams now rw hr =
      sendTokenResponse env appParams rw
        { Username := creds.Username, ExpiresAt := now.Unix + 60 * appParams.jwt.Exp } := by
  rw [loginHandler_success env appParams now rw hr creds hash hd hu hc]
  have hw : wrapInt64 (appParams.jwt.Exp * time.Minute) = appParams.jwt.Exp * 60000000000 := by
    have hm : time.Minute = 60000000000 := by decide
    rw [hm]
    exact wrapInt64_of_range _ (by omega) (by omega)
  have he : (now.Add (wrapInt64 (appParams.jwt.Exp * time.Minute))).Unix =
      now.Unix + 60 * appParams.jwt.Exp := by
    rw [hw]
    unfold Time.Add Time.Unix
    simp only
    omega
  rw [he]

/-- C7 on the example: `alice` logs in at `t0` with `exp = 15`. -/
theorem login_expiresAt_witness :
    loginHandler demoEnv (demoParams 15 120) ⟨t0 * 1000000000⟩ [] ⟨[], "alice/secret".toList⟩ =
      sendTokenResponse demoEnv (demoParams 15 120) []
        { Username := "alice".toList, ExpiresAt := t0 + 60 * 15 } :=
  login_expiresAt demoEnv (demoParams 15 120) ⟨t0 * 1000000000⟩ [] ⟨[], "alice/secret".toList⟩
    ⟨"alice".toList, "secret".toList⟩ "bcrypt:secret".toList
    (by decide) (by decide) (by decide) (by decide) (by decide)

/-- C7 as stated fails for a large `exp`: with `exp = 153722868` minutes the
product with `time.Minute` wraps to a negative duration, and the login at `t0`
signs `ExpiresAt = -7523371994`, not `t0 + 60 * 153722868`. -/
theorem login_expiresAt_counterexample :
    loginHandler wrapEnv (demoParams 153722868 120) ⟨t0 * 1000000000⟩ []
        ⟨[], "alice/secret".toList⟩ = [⟨200, "xyz".toList⟩] ∧
    wrapEnv.SignedString { Username := "alice".toList, ExpiresAt := t0 + 60 * 153722868 }
        demoKey = .error "key is invalid".toList ∧
    loginHandler wrapEnv (demoParams 153722868 120) ⟨t0 * 1000000000⟩ []
        ⟨[], "alice/secret".toList⟩ ≠
      sendTokenResponse wrapEnv (demoParams 153722868 120) []
        { Username := "alice".toList, ExpiresAt := t0 + 60 * 153722868 } := by
  decide

/-- C8, as the code has it: the claims signed by a successful login have
`IssuedAt` unset, that is zero; the login sets the user name and `ExpiresAt`
only. -/
theorem login_issuedAt_unset (env : Env) (appParams : AppParams) (now : Time)
    (rw : ResponseWriter) (hr : Request) (creds : Credentials) (hash : GoString)
    (hd : env.jsonDecode hr.Body = .ok creds)
    (hu : appParams.user creds.Username = some hash)
    (hc : env.CompareHashAndPassword hash creds.Password = none) :
    ∃ exp : Int, loginHandler env appParams now rw hr =
      sendTokenResponse env appParams rw
        { Username := creds.Username, ExpiresAt := exp, IssuedAt := 0, NotBefore := 0,
          Audience := [], Id := [], Issuer := [], Subject := [] } :=
  ⟨_, loginHandler_success env appParams now rw hr creds hash hd hu hc⟩

/-- C8 on the example: `alice` logs in at `t0`. -/
theorem login_issuedAt_unset_witness :
    ∃ exp : Int, loginHandler demoEnv (demoParams 15 120) ⟨t0 * 1000000000⟩ []
        ⟨[], "alice/secret".toList⟩ =
      sendTokenResponse demoEnv (demoParams 15 120) []
        { Username := "alice".toList, ExpiresAt := exp, IssuedAt := 0, NotBefore := 0,
          Audience := [], Id := [], Issuer := [], Subject := [] } :=
  login_issuedAt_unset demoEnv (demoParams 15 120) ⟨t0 * 1000000000⟩ []
    ⟨[], "alice/secret".toList⟩ ⟨"alice".toList, "secret".toList⟩ "bcrypt:secret".toList
    (by decide) (by decide) (by decide)

/-- C8 as stated fails: the login of `alice` at `t0` returns the token `abc`,
which is the signature of claims with `IssuedAt = 0`; claims with
`IssuedAt = t0` are not what was signed. -/
theorem login_issuedAt_counterexample :
    loginHandler demoEnv (demoParams 15 120) ⟨t0 * 1000000000⟩ []
        ⟨[], "alice/secret".toList⟩ = [⟨200, "abc".toList⟩] ∧
    demoEnv.SignedString aliceClaims demoKey = .ok "abc".toList ∧
    aliceClaims.IssuedAt = 0 ∧
    aliceClaims.IssuedAt ≠ (Time.mk (t0 * 1000000000)).Unix ∧
    loginHandler demoEnv (demoParams 15 120) ⟨t0 * 1000000000⟩ []
        ⟨[], "alice/secret".toList⟩ ≠
      sendTokenResponse demoEnv (demoParams 15 120) [] { aliceClaims with IssuedAt := t0 } := by
  decide

/-! ## Renewal -/

/-- Below `2^63 - unixToInternal` seconds, `time.Unix` does not wrap around. -/
theorem time_Unix_of_range (sec : Int) (hlo : -9223372036854775808 ≤ sec)
    (hhi : sec ≤ 9223371974719179007) : time.Unix sec 0 = ⟨sec * 1000000000⟩ := by
  unfold time.Unix time.unixToInternal
  rw [wrapInt64_of_range _ (by omega) (by omega)]
  congr 1
  omega

/-- The comparison of `renewJwtHandler`, when `renewTime` seconds fit in a
`Duration` and `time.Unix` does not wrap around at `ExpiresAt`: the saturated
`time.Until` exceeds the window exactly when the remaining time does. -/
theorem until_gt_iff (c : Claims) (now2 : Time) (renewTime : Int)
    (hlo : -9223372036 ≤ renewTime) (hhi : renewTime ≤ 9223372036)
    (helo : -9223372036854775808 ≤ c.ExpiresAt) (hehi : c.ExpiresAt ≤ 9223371974719179007) :
    time.Until now2 (time.Unix c.ExpiresAt 0) > wrapInt64 (renewTime * time.Second) ↔
      remaining c now2 > renewTime * 1000000000 := by
  have hs : time.Second = 1000000000 := rfl
  rw [hs, wrapInt64_of_range _ (by omega) (by omega), time_Unix_of_range _ helo hehi]
  unfold time.Until Time.Sub remaining time.minDuration time.maxDuration
  norm_num
  split
  · constructor <;> intro h <;> unfold Duration at * <;> omega
  · split
    · constructor <;> intro h <;> unfold Duration at * <;> omega
    · rfl

/-- Once the token check has passed, `renewJwtHandler` re-signs the claims it was
presented, unchanged, unless the window is exceeded. -/
theorem renewJwtHandler_checked (env : Env) (appParams : AppParams) (now now2 : Time)
    (rw : ResponseWriter) (hr : Request) (c : Claims)
    (hc : checkJwtToken env appParams now hr = .ok c) :
    renewJwtHandler env appParams now now2 rw hr =
      if time.Until now2 (time.Unix c.ExpiresAt 0) >
          wrapInt64 (appParams.jwt.RenewTime * time.Second) then
        sendResponse rw http.StatusBadRequest
          "the JWT token can be renewed only when it is close to expiration".toList
      else sendTokenResponse env appParams rw c := by
  unfold renewJwtHandler
  rw [hc]

/-- C2, inside the 64-bit ranges: for a token that passes `checkJwtToken` with
an `ExpiresAt` below `2^63 - 62135596800 = 9223371974719179008`, where
`time.Unix` does not wrap around, and a `renewTime` between -9223372036 and
9223372036 seconds, which fits in a `Duration`, `renewJwtHandler` answers 400
"the JWT token can be renewed only when it is close to expiration", and issues
nothing, exactly when the time remaining until `ExpiresAt` is strictly greater
than `renewTime` seconds; when it is at most `renewTime` seconds, the bound
included, the handler goes on to `sendTokenResponse`. -/
theorem renew_window (env : Env) (appParams : AppParams) (now now2 : Time)
    (rw : ResponseWriter) (hr : Request) (c : Claims)
    (hc : checkJwtToken env appParams now hr = .ok c)
    (hlo : -9223372036 ≤ appParams.jwt.RenewTime)
    (hhi : appParams.jwt.RenewTime ≤ 9223372036)
    (helo : -9223372036854775808 ≤ c.ExpiresAt)
    (hehi : c.ExpiresAt ≤ 9223371974719179007) :
    (renewJwtHandler env appParams now now2 rw hr =
        rw ++ [⟨http.StatusBadRequest,
          "the JWT token can be renewed only when it is close to expiration".toList⟩] ↔
      remaining c now2 > appParams.jwt.RenewTime * 1000000000) ∧
    (remaining c now2 ≤ appParams.jwt.RenewTime * 1000000000 →
      renewJwtHandler env appParams now now2 rw hr = sendTokenResponse env appParams rw c) := by
  rw [renewJwtHandler_checked env appParams now now2 rw hr c hc]
  have hiff := until_gt_iff c now2 appParams.jwt.RenewTime hlo hhi helo hehi
  by_cases hg : remaining c now2 > appParams.jwt.RenewTime * 1000000000
  · rw [if_pos (hiff.2 hg)]
    exact ⟨⟨fun _ => hg, fun _ => rfl⟩, fun hle => absurd hg (by omega)⟩
  · have hn : ¬ time.Until now2 (time.Unix c.ExpiresAt 0) >
        wrapInt64 (appParams.jwt.RenewTime * time.Second) := fun h => hg (hiff.1 h)
    rw [if_neg hn]
    refine ⟨⟨fun h => ?_, fun h => absurd h hg⟩, fun _ => rfl⟩
    exfalso
    have hst := sendTokenResponse_cases env appParams rw c http.StatusBadRequest _ h
    simp [http.StatusBadRequest] at hst

/-- C2 on the scenario of the spec: `exp` 15 minutes, `renewTime` 120 seconds; at
`t0 + 14m` (60 seconds remain) the renewal is granted, at `t0 + 5m` (600 seconds
remain) it is refused. -/
theorem renew_window_witness :
    renewJwtHandler demoEnv (demoParams 15 120) ⟨(t0 + 840) * 1000000000⟩
        ⟨(t0 + 840) * 1000000000⟩ [] ⟨"Bearer abc".toList, []⟩ =
      sendTokenResponse demoEnv (demoParams 15 120) [] aliceClaims ∧
    renewJwtHandler demoEnv (demoParams 15 120) ⟨(t0 + 300) * 1000000000⟩
        ⟨(t0 + 300) * 1000000000⟩ [] ⟨"Bearer abc".toList, []⟩ =
      [⟨400, "the JWT token can be renewed only when it is close to expiration".toList⟩] :=
  ⟨(renew_window demoEnv (demoParams 15 120) ⟨(t0 + 840) * 1000000000⟩
      ⟨(t0 + 840) * 1000000000⟩ [] ⟨"Bearer abc".toList, []⟩ aliceClaims
      (by decide) (by decide) (by decide) (by decide) (by decide)).2 (by decide),
   (renew_window demoEnv (demoParams 15 120) ⟨(t0 + 300) * 1000000000⟩
      ⟨(t0 + 300) * 1000000000⟩ [] ⟨"Bearer abc".toList, []⟩ aliceClaims
      (by decide) (by decide) (by decide) (by decide) (by decide)).1.2 (by decide)⟩

/-- C2 as stated fails in two places, both at `t0 + 14m`. With
`renewTime = 9223372037` seconds the product with `time.Second` wraps to a
negative duration, and the token of `alice`, valid and with 60 seconds left, far
less than `renewTime`, is refused with 400. With `renewTime = 120` and a
correctly signed token whose `ExpiresAt` is 9223372036854775807, `time.Unix`
wraps around to an instant in the past, `time.Until` is the smallest `Duration`,
and the token, which has far more than 120 seconds left, is renewed with 200. -/
theorem renew_window_counterexample :
    (checkJwtToken demoEnv (demoParams 15 9223372037) ⟨(t0 + 840) * 1000000000⟩
        ⟨"Bearer abc".toList, []⟩ = .ok aliceClaims ∧
      remaining aliceClaims ⟨(t0 + 840) * 1000000000⟩ = 60 * 1000000000 ∧
      remaining aliceClaims ⟨(t0 + 840) * 1000000000⟩ ≤ 9223372037 * 1000000000 ∧
      renewJwtHandler demoEnv (demoParams 15 9223372037) ⟨(t0 + 840) * 1000000000⟩
          ⟨(t0 + 840) * 1000000000⟩ [] ⟨"Bearer abc".toList, []⟩ =
        [⟨400,
          "the JWT token can be renewed only when it is close to expiration".toList⟩]) ∧
    (checkJwtToken farEnv (demoParams 15 120) ⟨(t0 + 840) * 1000000000⟩
        ⟨"Bearer far".toList, []⟩ = .ok farClaims ∧
      remaining farClaims ⟨(t0 + 840) * 1000000000⟩ > 120 * 1000000000 ∧
      time.Until ⟨(t0 + 840) * 1000000000⟩ (time.Unix farClaims.ExpiresAt 0) =
        time.minDuration ∧
      renewJwtHandler farEnv (demoParams 15 120) ⟨(t0 + 840) * 1000000000⟩
          ⟨(t0 + 840) * 1000000000⟩ [] ⟨"Bearer far".toList, []⟩ =
        [⟨200, "far".toList⟩]) := by
  decide

/-- The validation of jwt-go fails for claims whose `ExpiresAt` is set and
earlier than the current Unix second. -/
theorem valid_expired (env : Env) (now : Time) (c : Claims) (h0 : c.ExpiresAt ≠ 0)
    (hexp : c.ExpiresAt < now.Unix) : ∃ err, jwt.Valid env now c = some err := by
  have hv : jwt.verifyExp c.ExpiresAt now.Unix false = false := by
    unfold jwt.verifyExp
    rw [if_neg h0]
    exact decide_eq_false (by omega)
  unfold jwt.Valid
  simp only [hv, if_true]
  split
  · exact ⟨_, rfl⟩
  · split
    · exact ⟨_, rfl⟩
    · exact ⟨_, rfl⟩

/-- The validation of jwt-go passes for claims that set `ExpiresAt` only, up to
and including the second `ExpiresAt`. -/
theorem valid_before (env : Env) (now : Time) (c : Claims) (hi : c.IssuedAt = 0)
    (hn : c.NotBefore = 0) (hexp : now.Unix ≤ c.ExpiresAt) : jwt.Valid env now c = none := by
  have hv : jwt.verifyExp c.ExpiresAt now.Unix false = true := by
    unfold jwt.verifyExp
    split
    · rfl
    · exact decide_eq_true hexp
  simp [jwt.Valid, hv, jwt.verifyIat, jwt.verifyNbf, hi, hn]

/-- C9, as the code has it: the renewal path has no exemption from expiry. It
runs the same `checkJwtToken` as the gate and answers 401 exactly when that
check returns an error, with the error's text; a correctly signed token whose
`ExpiresAt` is set and earlier than the current Unix second fails the
validation of the token library, so the renewal answers 401 and issues
nothing. -/
theorem renew_checks_like_gate (env : Env) (appParams : AppParams) (now now2 : Time)
    (rw : ResponseWriter) (hr : Request) :
    ((∃ err, renewJwtHandler env appParams now now2 rw hr =
        rw ++ [⟨http.StatusUnauthorized, err⟩]) ↔
      ∃ err, checkJwtToken env appParams now hr = .error err) ∧
    (∀ err, checkJwtToken env appParams now hr = .error err →
      renewJwtHandler env appParams now now2 rw hr = rw ++ [⟨http.StatusUnauthorized, err⟩]) ∧
    (∀ tok c, HandsToDecoder hr.Authorization tok →
      env.decodeVerified tok appParams.jwt.Key = .ok c →
      c.ExpiresAt ≠ 0 → c.ExpiresAt < now.Unix →
      ∃ err, jwt.Valid env now c = some err ∧
        renewJwtHandler env appParams now now2 rw hr =
          rw ++ [⟨http.StatusUnauthorized, err⟩]) := by
  have herr : ∀ err, checkJwtToken env appParams now hr = .error err →
      renewJwtHandler env appParams now now2 rw hr =
        rw ++ [⟨http.StatusUnauthorized, err⟩] := by
    intro err he
    unfold renewJwtHandler
    rw [he]
    rfl
  refine ⟨⟨?_, ?_⟩, herr, ?_⟩
  · rintro ⟨err, hre⟩
    cases hc : checkJwtToken env appParams now hr with
    | error e => exact ⟨e, rfl⟩
    | ok c =>
      exfalso
      rw [renewJwtHandler_checked env appParams now now2 rw hr c hc] at hre
      split at hre
      · have := (sendResponse_inj rw _ _ _ _ hre).1
        simp [http.StatusBadRequest, http.StatusUnauthorized] at this
      · have hst := sendTokenResponse_cases env appParams rw c http.StatusUnauthorized err hre
        simp [http.StatusUnauthorized] at hst
  · rintro ⟨err, he⟩
    exact ⟨err, herr err he⟩
  · intro tok c hh hd h0 hexp
    obtain ⟨err, hv⟩ := valid_expired env now c h0 hexp
    refine ⟨err, hv, herr err ?_⟩
    have hcheck := hh env appParams now hr.Body
    rw [hcheck]
    unfold jwt.ParseWithClaims
    rw [hd]
    simp only [hv]

/-- C9 on the example: the token of `alice` presented one minute after its
expiration. -/
theorem renew_checks_like_gate_witness :
    ∃ err, jwt.Valid demoEnv ⟨(t0 + 960) * 1000000000⟩ aliceClaims = some err ∧
      renewJwtHandler demoEnv (demoParams 15 120) ⟨(t0 + 960) * 1000000000⟩
          ⟨(t0 + 960) * 1000000000⟩ [] ⟨"Bearer abc".toList, []⟩ =
        [] ++ [⟨http.StatusUnauthorized, err⟩] :=
  (renew_checks_like_gate demoEnv (demoParams 15 120) ⟨(t0 + 960) * 1000000000⟩
    ⟨(t0 + 960) * 1000000000⟩ [] ⟨"Bearer abc".toList, []⟩).2.2 "abc".toList aliceClaims
    (handsToDecoder_cut _ [] _ rfl (by decide)) (by decide) (by decide) (by decide)

/-- C9 as stated fails: the token `abc` of `alice` is correctly signed and
expired at `t0 + 900`; presented for renewal at `t0 + 960` with a window of 120
seconds, it is answered 401 "token is expired by 1m0s" and no token is
issued. -/
theorem renew_expired_counterexample :
    demoEnv.decodeVerified "abc".toList demoKey = .ok aliceClaims ∧
    aliceClaims.ExpiresAt < (Time.mk ((t0 + 960) * 1000000000)).Unix ∧
    remaining aliceClaims ⟨(t0 + 960) * 1000000000⟩ ≤ 120 * 1000000000 ∧
    renewJwtHandler demoEnv (demoParams 15 120) ⟨(t0 + 960) * 1000000000⟩
        ⟨(t0 + 960) * 1000000000⟩ [] ⟨"Bearer abc".toList, []⟩ =
      [⟨401, "token is expired by 1m0s".toList⟩] :=
  ⟨by decide, by decide, by decide, by
    set_option maxRecDepth 10000 in
    decide⟩

/-- C1 fails on the code: the token `abc` of `alice`, issued at `t0` for 15
minutes, correctly signed, unexpired and with 60 seconds left at `t0 + 14m`,
inside the window of 120 seconds, is renewed by signing the very claims it
carries: the response is the token for `ExpiresAt = t0 + 900`, the expiration
of the token presented, not a later one. -/
theorem renew_keeps_expiresAt :
    checkJwtToken demoEnv (demoParams 15 120) ⟨(t0 + 840) * 1000000000⟩
        ⟨"Bearer abc".toList, []⟩ = .ok aliceClaims ∧
    remaining aliceClaims ⟨(t0 + 840) * 1000000000⟩ ≤ 120 * 1000000000 ∧
    renewJwtHandler demoEnv (demoParams 15 120) ⟨(t0 + 840) * 1000000000⟩
        ⟨(t0 + 840) * 1000000000⟩ [] ⟨"Bearer abc".toList, []⟩ =
      sendTokenResponse demoEnv (demoParams 15 120) [] aliceClaims ∧
    renewJwtHandler demoEnv (demoParams 15 120) ⟨(t0 + 840) * 1000000000⟩
        ⟨(t0 + 840) * 1000000000⟩ [] ⟨"Bearer abc".toList, []⟩ = [⟨200, "abc".toList⟩] ∧
    demoEnv.decodeVerified "abc".toList demoKey = .ok aliceClaims ∧
    aliceClaims.ExpiresAt = t0 + 900 ∧
    ¬ (aliceClaims.ExpiresAt < aliceClaims.ExpiresAt) := by
  decide

/-! ## Login followed by the gate -/

/-- C3: for a registered user name and password, the token that `loginHandler`
returns, presented as `Authorization: Bearer <token>` at any time strictly
before its `ExpiresAt`, with authentication enabled and the same key, makes
`isAuthorized` return true without writing anything, and `checkJwtToken`
returns the claims with that user name and no error; this for a codec that
decodes what it signed under the same key and whose tokens contain no space. -/
theorem login_then_gate (env : Env) (appParams : AppParams) (now now2 : Time)
    (rw rw2 : ResponseWriter) (hr : Request) (creds : Credentials) (hash tok body : GoString)
    (hd : env.jsonDecode hr.Body = .ok creds)
    (hu : appParams.user creds.Username = some hash)
    (hc : env.CompareHashAndPassword hash creds.Password = none)
    (hlogin : loginHandler env appParams now rw hr = rw ++ [⟨http.StatusOK, tok⟩])
    (hround : ∀ c t, env.SignedString c appParams.jwt.Key = .ok t →
      env.decodeVerified t appParams.jwt.Key = .ok c)
    (hcompact : ' ' ∉ tok)
    (hen : appParams.jwt.Enabled = true)
    (hbefore : now2.unixNano <
      (now.Add (wrapInt64 (appParams.jwt.Exp * time.Minute))).Unix * 1000000000) :
    isAuthorized env appParams now2 rw2 ⟨"Bearer ".toList ++ tok, body⟩ = (true, rw2) ∧
    checkJwtToken env appParams now2 ⟨"Bearer ".toList ++ tok, body⟩ =
      .ok { Username := creds.Username,
            ExpiresAt := (now.Add (wrapInt64 (appParams.jwt.Exp * time.Minute))).Unix } := by
  rw [loginHandler_success env appParams now rw hr creds hash hd hu hc] at hlogin
  have hsig : env.SignedString
      { Username := creds.Username,
        ExpiresAt := (now.Add (wrapInt64 (appParams.jwt.Exp * time.Minute))).Unix }
      appParams.jwt.Key = .ok tok := by
    rcases sendTokenResponse_cases env appParams rw _ http.StatusOK tok hlogin with h | h
    · exact h.2
    · simp [http.StatusOK] at h
  have hdec := hround _ _ hsig
  have hhands : HandsToDecoder ("Bearer ".toList ++ tok) tok := by
    refine handsToDecoder_cut _ [] tok rfl ?_
    rw [bearer_literal, countOccurrences_bearer_append, countOccurrences_of_no_space tok hcompact]
  have hcheck : checkJwtToken env appParams now2 ⟨"Bearer ".toList ++ tok, body⟩ =
      .ok { Username := creds.Username,
            ExpiresAt := (now.Add (wrapInt64 (appParams.jwt.Exp * time.Minute))).Unix } := by
    rw [hhands env appParams now2 body]
    unfold jwt.ParseWithClaims
    rw [hdec]
    have hv := valid_before env now2
      { Username := creds.Username,
        ExpiresAt := (now.Add (wrapInt64 (appParams.jwt.Exp * time.Minute))).Unix }
      rfl rfl (by
        show now2.Unix ≤ (now.Add (wrapInt64 (appParams.jwt.Exp * time.Minute))).Unix
        unfold Time.Unix at hbefore ⊢
        omega)
    simp only [hv]
  refine ⟨?_, hcheck⟩
  unfold isAuthorized
  rw [hen, hcheck]
  rfl

/-- C3 on the example: `alice` logs in at `t0` and presents her token one second
before it expires. -/
theorem login_then_gate_witness :
    isAuthorized demoEnv (demoParams 15 120) ⟨(t0 + 899) * 1000000000⟩ []
        ⟨"Bearer ".toList ++ "abc".toList, []⟩ = (true, []) ∧
    checkJwtToken demoEnv (demoParams 15 120) ⟨(t0 + 899) * 1000000000⟩
        ⟨"Bearer ".toList ++ "abc".toList, []⟩ =
      .ok { Username := "alice".toList,
            ExpiresAt := (Time.Add ⟨t0 * 1000000000⟩
              (wrapInt64 ((demoParams 15 120).jwt.Exp * time.Minute))).Unix } :=
  login_then_gate demoEnv (demoParams 15 120) ⟨t0 * 1000000000⟩ ⟨(t0 + 899) * 1000000000⟩
    [] [] ⟨[], "alice/secret".toList⟩ ⟨"alice".toList, "secret".toList⟩
    "bcrypt:secret".toList "abc".toList []
    (by decide) (by decide) (by decide) (by decide)
    (by
      intro c t h
      simp only [demoEnv, tableEnv, demoParams, List.find?] at h ⊢
      split at h
      · rename_i e he
        split at he
        · rename_i hcond
          simp only [Option.some.injEq] at he
          subst he
          simp only [Except.ok.injEq] at h
          subst h
          simp at hcond
          subst hcond
          decide
        · simp at he
      · simp at h)
    (by decide) (by decide) (by decide)

end Gogen
